import Mathlib

/-!
Verification of the generic query-parameter / endpoint framework of the
micro-cloud repository (`app/core/api/queryparams.py`, `app/core/api/routing.py`,
`app/core/api/middleware.py`, `app/models/auth.py`).

The Python code is shallowly embedded: dictionaries become association lists
with Python-dict semantics (first-insertion order, last value wins), fallible
code returns `Except`, and the asynchronous database calls (`count`, `get`,
`find_one`) are passed in as parameters (the count result, the looked-up
record, the credential table).
-/

namespace MicroCloud

/-! ## Python dict embedding

`dictInsert` mirrors Python `d[k] = v`: if the key is present the value is
replaced in place (keeping the original position), otherwise the pair is
appended.  `dictGet` mirrors `d.get(k)` / `k in d`. -/

def dictInsert {α : Type} (d : List (String × α)) (k : String) (v : α) :
    List (String × α) :=
  if d.any (fun p => p.1 = k) then
    d.map (fun p => if p.1 = k then (k, v) else p)
  else
    d ++ [(k, v)]

def dictGet {α : Type} (d : List (String × α)) (k : String) : Option α :=
  (d.find? (fun p => p.1 = k)).map (fun p => p.2)

/-- Last value bound to `k` in an association list (Python last-write-wins). -/
def lastVal {α : Type} (l : List (String × α)) (k : String) : Option α :=
  (l.reverse.find? (fun p => p.1 = k)).map (fun p => p.2)

/-! ## Python string primitives

Structurally recursive character-list implementations of the Python string
operations the embedded code uses (`str.split`, `str.startswith`, digit
tests, `int(...)`), so that every definition evaluates inside the kernel. -/

/-- One step of Python `str.split(sep)` over character lists; the `Nat`
argument is fuel bounded by the input length (the fallback branches are
unreachable for positive fuel and nonempty separator). -/
def splitOnAuxCL (sep : List Char) : Nat → List Char → List (List Char)
  | _, [] => [[]]
  | 0, l => [l]
  | Nat.succ n, c :: cs =>
    if sep.isPrefixOf (c :: cs) then
      [] :: splitOnAuxCL sep n (List.drop (sep.length - 1) cs)
    else
      match splitOnAuxCL sep n cs with
      | h :: t => (c :: h) :: t
      | [] => [[c]]

/-- Python `s.split(sep)` for a nonempty separator (`str.split` raises on an
empty separator; no call site passes one). -/
def pySplit (s sep : String) : List String :=
  if sep = "" then [s]
  else (splitOnAuxCL sep.data (s.data.length + 1) s.data).map
    (fun cs => String.mk cs)

/-- Python `s.startswith(pre)`. -/
def pyStartsWith (s pre : String) : Bool :=
  pre.data.isPrefixOf s.data

/-- Python-style character predicate over a whole string. -/
def pyAll (s : String) (p : Char → Bool) : Bool :=
  s.data.all p

def digitsToNat (ds : List Char) : Nat :=
  ds.foldl (fun n c => n * 10 + (c.toNat - ('0').toNat)) 0

/-- Integer parsing of a decimal string (optional leading minus sign),
as pydantic's lax string-to-int coercion accepts. -/
def pyToInt? (s : String) : Option Int :=
  match s.data with
  | [] => none
  | '-' :: ds =>
    if ds ≠ [] ∧ ds.all Char.isDigit then some (-(Int.ofNat (digitsToNat ds)))
    else none
  | ds =>
    if ds.all Char.isDigit then some (Int.ofNat (digitsToNat ds))
    else none

/-! ## Python float true division of integers

`self.pages = max(int(self.total / self.per_page), 1)` divides two Python
ints with `/`, which produces the correctly rounded IEEE-754 double of the
exact quotient (CPython's `long_true_divide` documents correct rounding),
and `int(...)` truncates toward zero.  `pyIntTrueDiv` models this exactly
with integer arithmetic: the quotient is scaled so that its 53-bit mantissa
lies in `[2^52, 2^53)`, the mantissa is rounded to nearest with ties to
even, and the value `mantissa * 2^e` is floored.  (Not modelled: the
`OverflowError` Python raises when the rounded quotient reaches `2^1024`,
and the exponent clamping of subnormals — which lie below `1` and so cannot
change the truncated value; every statement below stays far from both.)
This deviates from floor division `total // per_page` once `total ≥ 2^53`. -/

def log2fuel : Nat → Nat → Nat
  | 0, _ => 0
  | fuel + 1, n => if 2 ≤ n then log2fuel fuel (n / 2) + 1 else 0

/-- `⌊log2 n⌋` for `n ≥ 1`, by structural recursion on a fuel argument
(fuel `n` always suffices since the argument at least halves each step). -/
def pyLog2 (n : Nat) : Nat := log2fuel n n

/-- The fraction `(a / b) * 2^(-e)` as a numerator/denominator pair of
naturals (exactly one of the two factors is a nontrivial power of two). -/
def scalePair (a b : ℕ) (e : ℤ) : ℕ × ℕ :=
  (a * 2 ^ (-e).toNat, b * 2 ^ e.toNat)

/-- The binary exponent of the double nearest `a / b` (for `a, b ≥ 1`): the
`e` with `a / b ∈ [2^(52+e), 2^(53+e))`.  The candidate `e1` overshoots by
at most one by the `⌊log2⌋` bounds on `a` and `b`; the branch test decides
(the upper bound holds at `e1` automatically, and at `e1 - 1` it is exactly
the negation of the branch test). -/
def floatDivExp (a b : ℕ) : ℤ :=
  let e1 : ℤ := (pyLog2 a : ℤ) - (pyLog2 b : ℤ) - 52
  if (scalePair a b e1).2 * 2 ^ 52 ≤ (scalePair a b e1).1 then e1 else e1 - 1

/-- Python `int(a / b)` for ints `a ≥ 0`, `b ≥ 1`: the exact quotient is
rounded to a 53-bit mantissa (nearest, ties to even) at exponent
`floatDivExp a b`, and the resulting double is truncated.  (`b = 0` would
raise `ZeroDivisionError`; `per_page` is a `PositiveInt`, so the `0` result
in that branch is unreachable.) -/
def pyIntTrueDiv (a b : ℕ) : ℕ :=
  if a = 0 ∨ b = 0 then 0
  else
    let e := floatDivExp a b
    let p := scalePair a b e
    let m := p.1 / p.2
    let r := p.1 % p.2
    let m2 := if 2 * r < p.2 then m
      else if p.2 < 2 * r then m + 1
      else if m % 2 = 0 then m else m + 1
    if 0 ≤ e then m2 * 2 ^ e.toNat else m2 / 2 ^ (-e).toNat

/-! ## Filter values (`queryparams.py`)

`FilterValue` in the source is the union
`PydanticObjectId | int | float | datetime | str | bool` validated with
`check_object_id`.  Query-string inputs are strings; pydantic smart-union
validation keeps a string input as `str`, after which `check_object_id`
converts a valid 24-hex-character ObjectId string to `PydanticObjectId`.
`DictValue` (the `between` bounds) coerces its string inputs to numbers; the
embedding models the integer coercion (`float`/`datetime` bounds are outside
the claims considered here) and fails like pydantic on non-numeric input. -/

inductive ScalarValue where
  | str (s : String)
  | objId (s : String)
  | int (n : Int)
  | bool (b : Bool)
  deriving Repr, DecidableEq

inductive FilterValue where
  | scalar (v : ScalarValue)
  | listV (vs : List ScalarValue)
  | range (mn mx : ScalarValue)
  deriving Repr, DecidableEq

def isHexDigitChar (c : Char) : Bool :=
  c.isDigit || ('a' ≤ c && c ≤ 'f') || ('A' ≤ c && c ≤ 'F')

/-- `PydanticObjectId.is_valid` on a string: 24 hexadecimal characters. -/
def isValidObjectId (s : String) : Bool :=
  s.length == 24 && pyAll s isHexDigitChar

/-- `check_object_id` from `custom_fields.py`, on a scalar. -/
def check_object_id_scalar (v : ScalarValue) : ScalarValue :=
  match v with
  | .str s => if isValidObjectId s then .objId s else .str s
  | x => x

/-- `check_object_id` applied by the `FilterByAttribute.value` validator to a
whole value: only a string value can be converted, compound values pass
through untouched. -/
def check_object_id_value (v : FilterValue) : FilterValue :=
  match v with
  | .scalar s => .scalar (check_object_id_scalar s)
  | x => x

/-- `SingleValue(value=s).value`: smart-union keeps the string, then
`check_object_id` runs. -/
def singleValue (s : String) : ScalarValue :=
  check_object_id_scalar (.str s)

/-! ## Operators (`enums.py`) -/

inductive Operators where
  | gt | lt | gte | lte | eq | ne | opIn | opNin | btw | contains | matches
  deriving Repr, DecidableEq

def Operators.val : Operators → String
  | .gt => "$gt"
  | .lt => "$lt"
  | .gte => "$gte"
  | .lte => "$lte"
  | .eq => "$eq"
  | .ne => "$ne"
  | .opIn => "$in"
  | .opNin => "$nin"
  | .btw => "$btw"
  | .contains => "$has"
  | .matches => "$is"

/-- Enum lookup by value, as pydantic validates `Operators(<string>)`. -/
def Operators.ofValue (s : String) : Option Operators :=
  if s = "$gt" then some .gt
  else if s = "$lt" then some .lt
  else if s = "$gte" then some .gte
  else if s = "$lte" then some .lte
  else if s = "$eq" then some .eq
  else if s = "$ne" then some .ne
  else if s = "$in" then some .opIn
  else if s = "$nin" then some .opNin
  else if s = "$btw" then some .btw
  else if s = "$has" then some .contains
  else if s = "$is" then some .matches
  else none

/-- `Operators.format_args`: a `$btw` filter becomes an inclusive lower /
strict upper bound pair, every other operator maps its value directly.
Accessing `args["min"]` on a non-dict argument raises in Python, hence the
`Option`. -/
def Operators.format_args (o : Operators) (v : FilterValue) :
    Option (List (String × FilterValue)) :=
  match o, v with
  | .btw, .range mn mx => some [("$gte", .scalar mn), ("$lt", .scalar mx)]
  | .btw, _ => none
  | o, v => some [(o.val, v)]

/-! ## Filter parsing (`ModelQueryParams.prepare_filter_args`) -/

/-- A parsed filter clause `dict(op=op, value=value)`: the operator token is
kept verbatim as it appeared in the query-string key. -/
structure FilterClause where
  op : String
  value : FilterValue
  deriving Repr, DecidableEq

def STANDARD_PARAMS : List String :=
  ["sort_by.order_by", "sort_by.asc_desc", "page_by.page", "page_by.per_page",
   "query", "view"]

/-- `DictValue` bound coercion: pydantic lax string-to-int validation
(`float` and `datetime` bounds are not modelled; non-integer input fails). -/
def dictValueBound (s : String) : Except String ScalarValue :=
  match pyToInt? s with
  | some n => Except.ok (.int n)
  | none => Except.error "ValidationError: DictValue bound is not numeric"

/-- The body of the `for k, v in filter_options.items()` loop of
`prepare_filter_args`, processing one query-string pair into the
`(filter_args, others)` state.  Mirrors the source line by line; the two
`continue` branches route the pair into `others`, the `$btw` branch raises
`IndexError` when the value has fewer than two `__`-separated parts, exactly
as `val[1]` does in Python. -/
def parseStep (fieldNames : List String)
    (st : List (String × FilterClause) × List (String × String))
    (k v : String) :
    Except String (List (String × FilterClause) × List (String × String)) :=
  let parts := pySplit k "."
  let dotpath := parts.dropLast
  let op := parts.getLastD ""
  let val := pySplit v "__"
  if dotpath.length < 1 then
    Except.ok (st.1, dictInsert st.2 k v)
  else if (¬ fieldNames.contains (dotpath.headD "") ∧ dotpath.headD "" ≠ "_id")
      ∨ val.length < 1 then
    Except.ok (st.1, dictInsert st.2 k v)
  else
    let name := String.intercalate "." dotpath
    if op = "$btw" then
      match val with
      | mn :: mx :: _ =>
        match dictValueBound mn, dictValueBound mx with
        | Except.error e, _ => Except.error e
        | _, Except.error e => Except.error e
        | Except.ok mnB, Except.ok mxB =>
          Except.ok (dictInsert st.1 name ⟨op, .range mnB mxB⟩, st.2)
      | _ => Except.error "IndexError: list index out of range"
    else if op = "$in" ∨ op = "$nin" then
      let items := pySplit (val.headD "") "|"
      Except.ok
        (dictInsert st.1 name ⟨op, .listV (items.map singleValue)⟩, st.2)
    else
      Except.ok
        (dictInsert st.1 name ⟨op, .scalar (singleValue (val.headD ""))⟩, st.2)

/-- The loop of `prepare_filter_args` over the non-standard query pairs. -/
def parseFilters (fieldNames : List String)
    (l : List (String × String))
    (st : List (String × FilterClause) × List (String × String)) :
    Except String (List (String × FilterClause) × List (String × String)) :=
  match l with
  | [] => Except.ok st
  | kv :: rest =>
    match parseStep fieldNames st kv.1 kv.2 with
    | Except.error e => Except.error e
    | Except.ok st' => parseFilters fieldNames rest st'

/-- `prepare_filter_args(query_params)`: drop the standard parameters, build
the `filter_options` dict (Python `dict(...)` de-duplicates keys, last value
wins), then run the parsing loop with empty `filter_args` and `others`.
Returns `(filter_args, others)`. -/
def prepare_filter_args (fieldNames : List String)
    (query_params : List (String × String)) :
    Except String (List (String × FilterClause) × List (String × String)) :=
  let filter_options :=
    (query_params.filter (fun p => ¬ STANDARD_PARAMS.contains p.1)).foldl
      (fun d p => dictInsert d p.1 p.2) []
  parseFilters fieldNames filter_options ([], [])

/-! ## Database query construction (`ModelQueryParams.get_db_query`)

`model_fields` is embedded as a list of `(name, isLink)` pairs: `isLink`
records whether the field's annotation is a beanie `Link` type (the only
annotation property `get_db_query` inspects).  The database `count()` result
is passed in as `total`. -/

/-- `FilterByAttribute(**v)`: the `op` string must validate as an `Operators`
enum member and `check_object_id` runs on the value. -/
structure FilterByAttribute where
  op : Operators
  value : FilterValue
  deriving Repr, DecidableEq

def mkFilterByAttribute (op : String) (v : FilterValue) :
    Option FilterByAttribute :=
  (Operators.ofValue op).map (fun o => ⟨o, check_object_id_value v⟩)

/-- The key fix of `get_db_query`: a `Link`-annotated field is queried through
its DBRef, so the key gains a `.$id` suffix. -/
def adjustKey (modelFields : List (String × Bool)) (k : String) : String :=
  match modelFields.find? (fun p => p.1 = k) with
  | some (_, true) => k ++ ".$id"
  | _ => k

/-- Loop 1 of `get_db_query`: translate each parsed `filter_by` clause that
names a declared field into the database predicate dict.  Clause validation
(`FilterByAttribute(**v)`) can raise, hence `Except`. -/
def applyFilters (modelFields : List (String × Bool))
    (fb : List (String × FilterClause))
    (acc : List (String × List (String × FilterValue))) :
    Except String (List (String × List (String × FilterValue))) :=
  match fb with
  | [] => Except.ok acc
  | kv :: rest =>
    if ¬ (modelFields.map (fun p => p.1)).contains kv.1 then
      applyFilters modelFields rest acc
    else
      match mkFilterByAttribute kv.2.op kv.2.value with
      | none => Except.error "ValidationError: invalid operator"
      | some attr =>
        match attr.op.format_args attr.value with
        | none => Except.error "TypeError: argument is not subscriptable"
        | some fmt =>
          applyFilters modelFields rest
            (dictInsert acc (adjustKey modelFields kv.1) fmt)

/-- Loop 2 of `get_db_query`: overlay every default filter entry whose key is
a declared field as an `$eq` predicate (`FilterByAttribute(op="$eq", value=v)`,
whose `format_args` is `{"$eq": value}` after `check_object_id`). -/
def applyDefaults (modelFields : List (String × Bool))
    (ds : List (String × FilterValue))
    (acc : List (String × List (String × FilterValue))) :
    List (String × List (String × FilterValue)) :=
  match ds with
  | [] => acc
  | kv :: rest =>
    if ¬ (modelFields.map (fun p => p.1)).contains kv.1 then
      applyDefaults modelFields rest acc
    else
      applyDefaults modelFields rest
        (dictInsert acc (adjustKey modelFields kv.1)
          [("$eq", check_object_id_value kv.2)])

/-- Pagination state set by `get_db_query`. -/
structure PageInfo where
  total : Nat
  skip : Nat
  pages : Nat
  next_page : Option Nat
  prev_page : Option Nat
  deriving Repr, DecidableEq

/-- `get_db_query(default_filters)`.  `page` and `per_page` are the
`PositiveInt` query parameters; `total` is the result of
`model_class.find(_filters).count()`.  `int(self.total / self.per_page)` is
embedded as `pyIntTrueDiv`, the exact model of Python's float true division
followed by truncation.  Returns the final filter dict together with the
pagination state. -/
def get_db_query (modelFields : List (String × Bool))
    (filter_by : List (String × FilterClause))
    (default_filters : List (List (String × FilterValue)))
    (page per_page total : Nat) :
    Except String
      (List (String × List (String × FilterValue)) × PageInfo) :=
  match applyFilters modelFields filter_by [] with
  | Except.error e => Except.error e
  | Except.ok filters1 =>
    let filters2 := applyDefaults modelFields default_filters.flatten filters1
    let skip := (page - 1) * per_page
    Except.ok (filters2,
      { total := total
        skip := skip
        pages := max (pyIntTrueDiv total per_page) 1
        next_page := if skip + per_page < total then some (page + 1) else none
        prev_page := if page > 1 then some (page - 1) else none })

/-! ## Error shapes (`enums.py` `ApplicationErrors`) -/

structure HttpErr where
  status : Nat
  code : String
  message : String
  deriving Repr, DecidableEq

/-- `ApplicationErrors.ENDPOINT_OPERATION_DENIED` raised as
`HTTPException(401, detail=dict(code=..., message=...))`. -/
def operationDeniedError : HttpErr :=
  ⟨401, "ENDPOINT.OPERATION.RESTRICTED",
   "This activity cannot be carried out because the endpoint is restricted"⟩

/-- Uniform guard-failure error object `{type, code, loc, msg}`. -/
structure GuardErrObj where
  type : String
  code : String
  loc : List String
  msg : String
  deriving Repr, DecidableEq

structure GuardFailure where
  status : Nat
  detail : List GuardErrObj
  deriving Repr, DecidableEq

def tokenRequiredFailure : GuardFailure :=
  ⟨401, [⟨"authentication_error", "TOKEN.REQUIRED", ["header", "authorization"],
    "Access token is required. Modify your request and try again."⟩]⟩

def tokenInvalidFailure : GuardFailure :=
  ⟨401, [⟨"authentication_error", "TOKEN.INVALID", ["header", "authorization"],
    "Access token is invalid. Please provide a valid token and try again."⟩]⟩

def tokenExpiredFailure : GuardFailure :=
  ⟨401, [⟨"authentication_error", "TOKEN.EXPIRED", ["header", "authorization"],
    "Your access token has expired. Try again with a valid token."⟩]⟩

def tokenDeniedFailure : GuardFailure :=
  ⟨401, [⟨"authentication_error", "TOKEN.DENIED", ["header", "authorization"],
    "Access token is denied. The user does not exist or is suspended."⟩]⟩

/-! ## Bearer-token guard (`MiddlewareFactory.auth_deps`) -/

/-- Outcome of `AuthToken.get_user_id` on the presented credentials:
`jwt.decode` may raise `ExpiredSignatureError` or `InvalidSignatureError`,
`model_validate` may raise `ValidationError`, otherwise a `uid` claim (or an
empty one) is produced. -/
inductive TokenDecode where
  | expired
  | invalidSig
  | validationErr
  | ok (uid : Option String)

structure UserRec where
  is_suspended : Bool

/-- The dependency closure produced by `MiddlewareFactory.auth_deps(klass,
public, validate)`. `decode` stands for `AuthToken.get_user_id`; `getUser`
stands for `klass.get`. Resolves to the authenticated user id, `none` when no
identity is attached. -/
def auth_dependency (publicFlag validate : Bool)
    (decode : String → TokenDecode)
    (getUser : String → Option UserRec)
    (authorization : Option String) : Except GuardFailure (Option String) :=
  if publicFlag = true then Except.ok none
  else
    match authorization with
    | none => Except.error tokenRequiredFailure
    | some cred =>
      if cred = "" then Except.error tokenRequiredFailure
      else
        match decode cred with
        | .expired => Except.error tokenExpiredFailure
        | .invalidSig => Except.error tokenInvalidFailure
        | .validationErr => Except.error tokenDeniedFailure
        | .ok none => Except.error tokenInvalidFailure
        | .ok (some uid) =>
          if validate = true then
            match getUser uid with
            | none => Except.error tokenDeniedFailure
            | some user =>
              if user.is_suspended then Except.error tokenDeniedFailure
              else Except.ok (some uid)
          else Except.ok (some uid)

/-! ## API-key guard (`MiddlewareFactory.api_deps`, `ApiCredential`) -/

structure ApiCredentialRec where
  app_id : String
  user_id : Option String
  test_key : Option String
  live_key : Option String
  is_active : Option Bool
  deriving Repr, DecidableEq

/-- `ApiCredential.find_by_key`: the key prefix selects the live or test
keyspace, then the credential record is matched by exact key equality. -/
def find_by_key (db : List ApiCredentialRec) (key : String) :
    Option ApiCredentialRec :=
  let targetLive := pyStartsWith key "sk_live"
  db.find? (fun c => (if targetLive then c.live_key else c.test_key) = some key)

/-- `AppToken` built by `api_deps` on success (computed `live_mode` omitted,
it is derived from `key`). -/
structure AppTokenRec where
  key : String
  app_id : String
  user_id : Option String
  deriving Repr, DecidableEq

def apiTokenRequiredError : HttpErr :=
  ⟨401, "TOKEN.REQUIRED",
   "Access token is required. Modify your request and try again."⟩

def apiTokenDeniedError : HttpErr :=
  ⟨401, "TOKEN.DENIED",
   "Access token is denied. The user does not exist or is suspended."⟩

/-- The dependency closure produced by `MiddlewareFactory.api_deps(klass,
public)`: `credentials` is the bearer value (the framework has already
required the header), `db` stands for the stored `ApiCredential` records
queried through `find_by_key`. -/
def api_dependency (publicFlag : Bool) (db : List ApiCredentialRec)
    (credentials : String) : Except HttpErr (Option AppTokenRec) :=
  if publicFlag = true then Except.ok none
  else if credentials = "" then Except.error apiTokenRequiredError
  else
    match find_by_key db credentials with
    | none => Except.error apiTokenDeniedError
    | some c =>
      if c.is_active = some false then Except.error apiTokenDeniedError
      else Except.ok (some ⟨credentials, c.app_id, c.user_id⟩)

/-! ## Generated route handlers (`routing.py` `Endpoint`)

Each `init_X_endpoint` registers a `_route_func` whose first statement checks
the corresponding allow flag and raises the fixed operation-denied
`HTTPException` before the payload or parameters are touched.  The handler
body behind the check is abstracted as a function argument. -/

def list_route_func {α β : Type} (allow_list : Bool) (handler : α → β)
    (params : α) : Except HttpErr β :=
  if allow_list = false then Except.error operationDeniedError
  else Except.ok (handler params)

def fetch_route_func {α β : Type} (allow_fetch : Bool) (handler : α → β)
    (obj_id : α) : Except HttpErr β :=
  if ¬ allow_fetch then Except.error operationDeniedError
  else Except.ok (handler obj_id)

def create_route_func {α β : Type} (allow_create : Bool) (handler : α → β)
    (payload : α) : Except HttpErr β :=
  if ¬ allow_create then Except.error operationDeniedError
  else Except.ok (handler payload)

def update_route_func {ι α β : Type} (allow_update : Bool)
    (handler : ι → α → β) (obj_id : ι) (payload : α) : Except HttpErr β :=
  if allow_update = false then Except.error operationDeniedError
  else Except.ok (handler obj_id payload)

def delete_route_func {ι β : Type} (allow_delete : Bool) (handler : ι → β)
    (obj_id : ι) : Except HttpErr β :=
  if ¬ allow_delete then Except.error operationDeniedError
  else Except.ok (handler obj_id)

structure EndpointFlags where
  allow_list : Bool
  allow_fetch : Bool
  allow_create : Bool
  allow_update : Bool
  allow_delete : Bool
  deriving Repr, DecidableEq

structure RouteEntry where
  method : String
  path : String
  include_in_schema : Bool
  deriving Repr, DecidableEq

/-- The route table registered by `Endpoint.init()`: every default route is
added to the router unconditionally; the allow flag only drives
`include_in_schema` (documentation visibility). -/
def Endpoint.init_routes (pre : String) (f : EndpointFlags) : List RouteEntry :=
  [⟨"GET", pre, f.allow_list⟩,
   ⟨"GET", pre ++ "/{obj_id}", f.allow_fetch⟩,
   ⟨"POST", pre, f.allow_create⟩,
   ⟨"PUT", pre ++ "/{obj_id}", f.allow_update⟩,
   ⟨"POST", pre ++ "/{obj_id}", f.allow_update⟩,
   ⟨"DELETE", pre ++ "/{obj_id}", f.allow_delete⟩]

/-! ## Default update handler (`routing.py` `_update_func`)

Records are embedded as association lists over an arbitrary value type.  The
payload distinguishes unset fields (absent) from fields explicitly set to
`None` (present with `none`): `payload.model_dump(exclude_unset=True,
exclude_none=True)` keeps exactly the fields that are present with a value. -/

/-- `payload.model_dump(exclude_unset=True, exclude_none=True)`. -/
def payload_dump {V : Type} (payload : List (String × Option V)) :
    List (String × V) :=
  payload.filterMap (fun p => p.2.map (fun v => (p.1, v)))

/-- The merge performed by `_update_func`: dump the payload, overlay
`extra_parameters` (`data.update(extra_parameters)`), then overlay the result
over the existing record's fields (`obj.model_copy(update=data)`); the merged
document is what is re-validated and persisted via `replace()`. -/
def _update_merge {V : Type} (existing : List (String × V))
    (payload : List (String × Option V)) (extra : List (String × V)) :
    List (String × V) :=
  let data := (payload_dump payload).foldl (fun d p => dictInsert d p.1 p.2) []
  let data := extra.foldl (fun d p => dictInsert d p.1 p.2) data
  data.foldl (fun m p => dictInsert m p.1 p.2) existing

/-- `_update_func`: fetch the record (`model_class.get(obj_id)`, passed in as
`obj`), fail if absent, otherwise produce the merged document that is
re-validated and replaced. -/
def _update_func {V : Type} (obj : Option (List (String × V)))
    (payload : List (String × Option V)) (extra : List (String × V)) :
    Except String (List (String × V)) :=
  match obj with
  | none => Except.error "Object not found"
  | some o => Except.ok (_update_merge o payload extra)

/-! ## Derived notions used in the statements -/

/-- The root-segment check of `prepare_filter_args` on a raw query-string
key: the key splits on `.` into an attribute path plus trailing operator
token, and the path's root segment must be a declared field or the reserved
`_id`.  `false` when the key has no path segment at all. -/
def rootCheckB (fieldNames : List String) (k : String) : Bool :=
  match ((pySplit k ".").dropLast).head? with
  | some r => fieldNames.contains r || r == "_id"
  | none => false

/-- The attribute-path name a query-string key contributes to `filter_args`:
all segments but the operator token, re-joined. -/
def nameOf (k : String) : String :=
  String.intercalate "." ((pySplit k ".").dropLast)

/-- Shape of the keys `get_db_query` may emit: a declared field name, or a
`Link`-annotated declared field name with the `.$id` suffix. -/
def GoodKey (modelFields : List (String × Bool)) (key : String) : Prop :=
  ∃ p, p ∈ modelFields ∧ (key = p.1 ∨ (p.2 = true ∧ key = p.1 ++ ".$id"))

/-! ## Association-list lemmas -/

theorem dictGet_dictInsert {α : Type} (d : List (String × α)) (k : String)
    (v : α) (k' : String) :
    dictGet (dictInsert d k v) k' = if k' = k then some v else dictGet d k' := by
  unfold dictInsert dictGet
  by_cases hany : d.any (fun p => decide (p.1 = k)) = true
  · rw [if_pos hany, List.find?_map]
    by_cases h : k' = k
    · subst h
      have hpred : ((fun q : String × α => decide (q.1 = k')) ∘
          (fun p => if p.1 = k' then (k', v) else p)) =
          (fun p : String × α => decide (p.1 = k')) := by
        funext p
        by_cases hp : p.1 = k' <;> simp [hp]
      rw [hpred]
      have h1 : (d.find? (fun p => decide (p.1 = k'))).isSome :=
        List.find?_isSome.2 (by simpa using hany)
      obtain ⟨q, hq⟩ := Option.isSome_iff_exists.1 h1
      have hqk0 := List.find?_some hq
      have hqk : q.1 = k' := by simpa using hqk0
      rw [hq]
      simp [hqk]
    · have hpred : ((fun q : String × α => decide (q.1 = k')) ∘
          (fun p => if p.1 = k then (k, v) else p)) =
          (fun p : String × α => decide (p.1 = k')) := by
        funext p
        by_cases hp : p.1 = k <;> simp [hp]
      rw [hpred]
      cases hfq : d.find? (fun p => decide (p.1 = k')) with
      | none => simp [h]
      | some q =>
        have hqk0 := List.find?_some hfq
        have hqk : q.1 = k' := by simpa using hqk0
        have hqknot : ¬ q.1 = k := fun hh => h (hqk.symm.trans hh)
        simp [h, hqknot]
  · rw [if_neg hany, List.find?_append]
    by_cases h : k' = k
    · subst h
      have hnone : d.find? (fun p => decide (p.1 = k')) = none := by
        rw [List.find?_eq_none]
        intro x hx hpx
        exact hany (List.any_eq_true.2 ⟨x, hx, hpx⟩)
      simp [hnone, List.find?]
    · have hkk' : (decide (k = k')) = false :=
        decide_eq_false (fun hh => h hh.symm)
      have h2 : (([(k, v)]).find? (fun p => decide (p.1 = k'))) = none := by
        simp [List.find?, hkk']
      simp [h2, h]

theorem lastVal_dictInsert {α : Type} (d : List (String × α)) (k : String)
    (v : α) (k' : String) :
    lastVal (dictInsert d k v) k' = if k' = k then some v else lastVal d k' := by
  unfold dictInsert lastVal
  by_cases hany : d.any (fun p => decide (p.1 = k)) = true
  · rw [if_pos hany, ← List.map_reverse, List.find?_map]
    by_cases h : k' = k
    · subst h
      have hpred : ((fun q : String × α => decide (q.1 = k')) ∘
          (fun p => if p.1 = k' then (k', v) else p)) =
          (fun p : String × α => decide (p.1 = k')) := by
        funext p
        by_cases hp : p.1 = k' <;> simp [hp]
      rw [hpred]
      have h1 : (d.reverse.find? (fun p => decide (p.1 = k'))).isSome :=
        List.find?_isSome.2 (by
          have := List.any_eq_true.1 hany
          obtain ⟨x, hx, hpx⟩ := this
          exact ⟨x, List.mem_reverse.2 hx, hpx⟩)
      obtain ⟨q, hq⟩ := Option.isSome_iff_exists.1 h1
      have hqk0 := List.find?_some hq
      have hqk : q.1 = k' := by simpa using hqk0
      rw [hq]
      simp [hqk]
    · have hpred : ((fun q : String × α => decide (q.1 = k')) ∘
          (fun p => if p.1 = k then (k, v) else p)) =
          (fun p : String × α => decide (p.1 = k')) := by
        funext p
        by_cases hp : p.1 = k <;> simp [hp]
      rw [hpred]
      cases hfq : d.reverse.find? (fun p => decide (p.1 = k')) with
      | none => simp [h]
      | some q =>
        have hqk0 := List.find?_some hfq
        have hqk : q.1 = k' := by simpa using hqk0
        have hqknot : ¬ q.1 = k := fun hh => h (hqk.symm.trans hh)
        simp [h, hqknot]
  · rw [if_neg hany, List.reverse_append]
    simp only [List.reverse_singleton, List.singleton_append, List.find?]
    by_cases h : k' = k
    · subst h
      simp
    · have hkk' : (decide (k = k')) = false :=
        decide_eq_false (fun hh => h hh.symm)
      simp [hkk', h]

theorem lastVal_cons {α : Type} (p : String × α) (rest : List (String × α))
    (k : String) :
    lastVal (p :: rest) k =
      match lastVal rest k with
      | some v => some v
      | none => if p.1 = k then some p.2 else none := by
  unfold lastVal
  rw [List.reverse_cons, List.find?_append]
  cases hfr : rest.reverse.find? (fun q => decide (q.1 = k)) with
  | none =>
    by_cases hp : p.1 = k <;> simp [Option.or, List.find?, hp]
  | some q => simp [Option.or]

theorem lastVal_nil {α : Type} (k : String) :
    lastVal ([] : List (String × α)) k = none := by
  simp [lastVal]

theorem lastVal_isSome_of_mem {α : Type} {l : List (String × α)} {k : String}
    {v : α} (h : (k, v) ∈ l) : (lastVal l k).isSome := by
  have h1 : (l.reverse.find? (fun p => decide (p.1 = k))).isSome :=
    List.find?_isSome.2 ⟨(k, v), List.mem_reverse.2 h, by simp⟩
  unfold lastVal
  obtain ⟨q, hq⟩ := Option.isSome_iff_exists.1 h1
  rw [hq]
  rfl

theorem lastVal_eq_none_of_not_mem {α : Type} {l : List (String × α)}
    {k : String} (h : ¬ k ∈ l.map (fun p => p.1)) : lastVal l k = none := by
  unfold lastVal
  have : l.reverse.find? (fun p => decide (p.1 = k)) = none := by
    rw [List.find?_eq_none]
    intro x hx hpx
    exact h (List.mem_map.2 ⟨x, List.mem_reverse.1 hx, of_decide_eq_true hpx⟩)
  simp [this]

theorem mem_dictInsert {α : Type} {d : List (String × α)} {k : String} {v : α}
    {q : String × α} (h : q ∈ dictInsert d k v) : q ∈ d ∨ q = (k, v) := by
  unfold dictInsert at h
  by_cases hany : d.any (fun p => decide (p.1 = k)) = true
  · rw [if_pos hany] at h
    obtain ⟨p, hp, hfp⟩ := List.mem_map.1 h
    by_cases hpk : p.1 = k
    · right
      rw [← hfp, if_pos hpk]
    · left
      rw [← hfp, if_neg hpk]
      exact hp
  · rw [if_neg hany] at h
    rcases List.mem_append.1 h with h1 | h1
    · exact Or.inl h1
    · exact Or.inr (List.mem_singleton.1 h1)

theorem dictInsert_forall_keys {α : Type} {P : String → Prop}
    {d : List (String × α)} {k : String} {v : α}
    (hd : ∀ q ∈ d, P q.1) (hk : P k) :
    ∀ q ∈ dictInsert d k v, P q.1 := by
  intro q hq
  rcases mem_dictInsert hq with h | h
  · exact hd q h
  · rw [h]
    exact hk

theorem dictGet_foldl_insert {α : Type} (l : List (String × α))
    (init : List (String × α)) (k : String) :
    dictGet (l.foldl (fun d p => dictInsert d p.1 p.2) init) k =
      match lastVal l k with
      | some v => some v
      | none => dictGet init k := by
  induction l generalizing init with
  | nil => simp [lastVal]
  | cons p rest ih =>
    rw [List.foldl_cons, ih, lastVal_cons]
    cases hl : lastVal rest k with
    | some v => simp
    | none =>
      simp only
      rw [dictGet_dictInsert]
      by_cases h : p.1 = k
      · subst h
        simp
      · rw [if_neg h]
        simp [show ¬ k = p.1 from fun hh => h hh.symm]

theorem lastVal_foldl_insert {α : Type} (l : List (String × α))
    (init : List (String × α)) (k : String) :
    lastVal (l.foldl (fun d p => dictInsert d p.1 p.2) init) k =
      match lastVal l k with
      | some v => some v
      | none => lastVal init k := by
  induction l generalizing init with
  | nil => simp [lastVal]
  | cons p rest ih =>
    rw [List.foldl_cons, ih, lastVal_cons]
    cases hl : lastVal rest k with
    | some v => simp
    | none =>
      simp only
      rw [lastVal_dictInsert]
      by_cases h : p.1 = k
      · subst h
        simp
      · rw [if_neg h]
        simp [show ¬ k = p.1 from fun hh => h hh.symm]

theorem mem_foldl_insert {α : Type} {l init : List (String × α)}
    {q : String × α}
    (h : q ∈ l.foldl (fun d p => dictInsert d p.1 p.2) init) :
    q ∈ init ∨ q ∈ l := by
  induction l generalizing init with
  | nil => exact Or.inl h
  | cons p rest ih =>
    rw [List.foldl_cons] at h
    rcases ih h with h1 | h1
    · rcases mem_dictInsert h1 with h2 | h2
      · exact Or.inl h2
      · exact Or.inr (by rw [h2]; simp)
    · exact Or.inr (List.mem_cons_of_mem p h1)

theorem dictGet_mem {α : Type} {d : List (String × α)} {k : String} {v : α}
    (h : dictGet d k = some v) : (k, v) ∈ d := by
  unfold dictGet at h
  cases hf : d.find? (fun p => decide (p.1 = k)) with
  | none => rw [hf] at h; simp at h
  | some q =>
    rw [hf] at h
    simp only [Option.map_some'] at h
    have hq1 : q.1 = k := by simpa using List.find?_some hf
    have hmem := List.mem_of_find?_eq_some hf
    have hq : q = (k, v) := by
      obtain ⟨a, b⟩ := q
      simp only [Prod.mk.injEq]
      exact ⟨hq1, by simpa using h⟩
    rw [← hq]
    exact hmem

theorem dictGet_isSome_foldl_insert {α : Type} {l init : List (String × α)}
    {k : String}
    (h : (dictGet init k).isSome ∨ ∃ v, (k, v) ∈ l) :
    (dictGet (l.foldl (fun d p => dictInsert d p.1 p.2) init) k).isSome := by
  rw [dictGet_foldl_insert]
  rcases h with h | ⟨v, hv⟩
  · cases hl : lastVal l k with
    | some w => simp
    | none => simpa [hl] using h
  · have := lastVal_isSome_of_mem hv
    cases hl : lastVal l k with
    | some w => simp
    | none => rw [hl] at this; simp at this

/-! ## Lemmas about `get_db_query`'s two loops -/

theorem adjustKey_goodKey (mf : List (String × Bool)) (k : String)
    (h : (mf.map (fun p => p.1)).contains k = true) :
    GoodKey mf (adjustKey mf k) := by
  have hk : k ∈ mf.map (fun p => p.1) := by simpa using h
  obtain ⟨p, hp, hpk⟩ := List.mem_map.1 hk
  unfold adjustKey
  cases hf : mf.find? (fun q => decide (q.1 = k)) with
  | none =>
    exact absurd (List.find?_eq_none.1 hf p hp) (by simp [hpk])
  | some q =>
    have hq1 : q.1 = k := by simpa using List.find?_some hf
    have hqmem := List.mem_of_find?_eq_some hf
    obtain ⟨f, b⟩ := q
    simp only at hq1
    cases b with
    | true => exact ⟨(f, true), hqmem, Or.inr ⟨rfl, by rw [hq1]⟩⟩
    | false => exact ⟨(f, false), hqmem, Or.inl hq1.symm⟩

theorem applyFilters_goodKeys (mf : List (String × Bool))
    (fb : List (String × FilterClause))
    (acc out : List (String × List (String × FilterValue)))
    (hacc : ∀ p ∈ acc, GoodKey mf p.1)
    (h : applyFilters mf fb acc = Except.ok out) :
    ∀ p ∈ out, GoodKey mf p.1 := by
  induction fb generalizing acc with
  | nil =>
    unfold applyFilters at h
    cases h
    exact hacc
  | cons kv rest ih =>
    unfold applyFilters at h
    by_cases hc : (mf.map (fun p => p.1)).contains kv.1 = true
    · rw [if_neg (not_not_intro hc)] at h
      split at h
      · cases h
      · split at h
        · cases h
        · exact ih _ (dictInsert_forall_keys hacc (adjustKey_goodKey mf kv.1 hc)) h
    · rw [if_pos hc] at h
      exact ih _ hacc h

theorem applyDefaults_goodKeys (mf : List (String × Bool))
    (ds : List (String × FilterValue))
    (acc : List (String × List (String × FilterValue)))
    (hacc : ∀ p ∈ acc, GoodKey mf p.1) :
    ∀ p ∈ applyDefaults mf ds acc, GoodKey mf p.1 := by
  induction ds generalizing acc with
  | nil => exact hacc
  | cons kv rest ih =>
    unfold applyDefaults
    by_cases hc : (mf.map (fun p => p.1)).contains kv.1 = true
    · rw [if_neg (not_not_intro hc)]
      exact ih _ (dictInsert_forall_keys hacc (adjustKey_goodKey mf kv.1 hc))
    · rw [if_pos hc]
      exact ih _ hacc

theorem applyDefaults_lookup_skip (mf : List (String × Bool))
    (ds : List (String × FilterValue))
    (acc : List (String × List (String × FilterValue))) (key : String)
    (h : ∀ p ∈ ds, (mf.map (fun q => q.1)).contains p.1 = true →
      adjustKey mf p.1 ≠ key) :
    dictGet (applyDefaults mf ds acc) key = dictGet acc key := by
  induction ds generalizing acc with
  | nil => rfl
  | cons kv rest ih =>
    unfold applyDefaults
    by_cases hc : (mf.map (fun q => q.1)).contains kv.1 = true
    · rw [if_neg (not_not_intro hc)]
      rw [ih _ (fun p hp => h p (List.mem_cons_of_mem _ hp))]
      rw [dictGet_dictInsert]
      rw [if_neg (fun hh : key = adjustKey mf kv.1 =>
        h kv (List.mem_cons_self _ _) hc hh.symm)]
    · rw [if_pos hc]
      exact ih _ (fun p hp => h p (List.mem_cons_of_mem _ hp))

theorem applyDefaults_lookup (mf : List (String × Bool))
    (ds : List (String × FilterValue))
    (acc : List (String × List (String × FilterValue)))
    (k : String) (v : FilterValue)
    (hmem : (k, v) ∈ ds)
    (hname : (mf.map (fun q => q.1)).contains k = true)
    (huniq : ∀ p ∈ ds, (mf.map (fun q => q.1)).contains p.1 = true →
      adjustKey mf p.1 = adjustKey mf k → p = (k, v)) :
    dictGet (applyDefaults mf ds acc) (adjustKey mf k) =
      some [("$eq", check_object_id_value v)] := by
  induction ds generalizing acc with
  | nil => cases hmem
  | cons kv rest ih =>
    by_cases hr : (k, v) ∈ rest
    · unfold applyDefaults
      by_cases hc : (mf.map (fun q => q.1)).contains kv.1 = true
      · rw [if_neg (not_not_intro hc)]
        exact ih _ hr (fun p hp => huniq p (List.mem_cons_of_mem _ hp))
      · rw [if_pos hc]
        exact ih _ hr (fun p hp => huniq p (List.mem_cons_of_mem _ hp))
    · have hkv : kv = (k, v) := by
        rcases List.mem_cons.1 hmem with h1 | h1
        · exact h1.symm
        · exact absurd h1 hr
      subst hkv
      unfold applyDefaults
      simp only
      rw [if_neg (not_not_intro hname)]
      rw [applyDefaults_lookup_skip mf rest _ _
        (fun p hp hc heq => hr (by
          have := huniq p (List.mem_cons_of_mem _ hp) hc heq
          rw [← this]
          exact hp))]
      rw [dictGet_dictInsert]
      simp

/-! ## Lemmas about the parsing loop -/

theorem parseStep_rootFail (fns : List String)
    (st : List (String × FilterClause) × List (String × String))
    (k v : String) (h : rootCheckB fns k = false) :
    parseStep fns st k v = Except.ok (st.1, dictInsert st.2 k v) := by
  unfold rootCheckB at h
  simp only [parseStep]
  cases hd : (pySplit k ".").dropLast with
  | nil => simp [hd]
  | cons r tl =>
    rw [hd] at h
    simp only [List.head?] at h
    have hc : fns.contains r = false := by
      cases hcc : fns.contains r
      · rfl
      · rw [hcc] at h; simp at h
    have hb : ¬ r = "_id" := by
      intro hh
      rw [hh] at h
      simp at h
    have h1 : ¬ ((r :: tl).length < 1) := by simp
    have hhead : (r :: tl).headD "" = r := rfl
    have hcp : ¬ fns.contains r = true := fun hx => by rw [hx] at hc; cases hc
    rw [if_neg h1, hhead, if_pos (Or.inl ⟨hcp, hb⟩)]

theorem parseStep_shape (fns : List String)
    (st st' : List (String × FilterClause) × List (String × String))
    (k v : String) (h : parseStep fns st k v = Except.ok st') :
    (st'.1 = st.1 ∧ st'.2 = dictInsert st.2 k v) ∨
    (∃ clause, st'.1 = dictInsert st.1 (nameOf k) clause ∧ st'.2 = st.2 ∧
      rootCheckB fns k = true) := by
  simp only [parseStep] at h
  split at h
  · obtain rfl := (Except.ok.inj h).symm
    exact Or.inl ⟨rfl, rfl⟩
  · rename_i h1
    split at h
    · obtain rfl := (Except.ok.inj h).symm
      exact Or.inl ⟨rfl, rfl⟩
    · rename_i h2
      have hroot : rootCheckB fns k = true := by
        unfold rootCheckB
        cases hd : (pySplit k ".").dropLast with
        | nil => rw [hd] at h1; simp at h1
        | cons r tl =>
          rw [hd] at h2
          simp only [List.head?]
          have h3 : ¬ (¬ fns.contains r ∧ r ≠ "_id") := by
            intro hx
            exact h2 (Or.inl hx)
          rcases Decidable.not_and_iff_or_not.1 h3 with h4 | h4
          · have hcr : fns.contains r = true := by
              cases hcc : fns.contains r
              · exact absurd (fun hx => by rw [hx] at hcc; cases hcc) h4
              · rfl
            have hmr : r ∈ fns := by simpa using hcr
            simp [hmr]
          · have : r = "_id" := Decidable.not_not.1 h4
            simp [this]
      right
      split at h
      · split at h
        · split at h
          · cases h
          · cases h
          · obtain rfl := (Except.ok.inj h).symm
            exact ⟨_, rfl, rfl, hroot⟩
        · cases h
      · split at h
        · obtain rfl := (Except.ok.inj h).symm
          exact ⟨_, rfl, rfl, hroot⟩
        · obtain rfl := (Except.ok.inj h).symm
          exact ⟨_, rfl, rfl, hroot⟩

theorem parseFilters_others (fns : List String) (l : List (String × String))
    (st : List (String × FilterClause) × List (String × String))
    (fa : List (String × FilterClause)) (o : List (String × String))
    (key : String)
    (h : parseFilters fns l st = Except.ok (fa, o))
    (hstart : (dictGet st.2 key).isSome ∨
      ∃ v, (key, v) ∈ l ∧ rootCheckB fns key = false) :
    (dictGet o key).isSome := by
  induction l generalizing st with
  | nil =>
    unfold parseFilters at h
    obtain rfl := Except.ok.inj h
    rcases hstart with hs | ⟨v, hm, _⟩
    · exact hs
    · cases hm
  | cons kv rest ih =>
    unfold parseFilters at h
    cases hs : parseStep fns st kv.1 kv.2 with
    | error e => rw [hs] at h; cases h
    | ok st' =>
      rw [hs] at h
      apply ih st' h
      rcases hstart with hsome | ⟨v, hm, hrc⟩
      · rcases parseStep_shape fns st st' kv.1 kv.2 hs with ⟨_, h2⟩ |
          ⟨clause, _, h2, _⟩
        · refine Or.inl ?_
          rw [h2, dictGet_dictInsert]
          by_cases hk : key = kv.1
          · simp [hk]
          · rw [if_neg hk]
            exact hsome
        · rw [h2]
          exact Or.inl hsome
      · rcases List.mem_cons.1 hm with he | hr
        · have hkv1 : kv.1 = key := by rw [← he]
          have := parseStep_rootFail fns st kv.1 kv.2 (by rw [hkv1]; exact hrc)
          rw [this] at hs
          obtain rfl := Except.ok.inj hs
          refine Or.inl ?_
          rw [dictGet_dictInsert]
          rw [if_pos hkv1.symm]
          rfl
        · exact Or.inr ⟨v, hr, hrc⟩

theorem parseFilters_fa_source (fns : List String)
    (l : List (String × String))
    (st : List (String × FilterClause) × List (String × String))
    (fa : List (String × FilterClause)) (o : List (String × String))
    (h : parseFilters fns l st = Except.ok (fa, o)) :
    ∀ p ∈ fa, p ∈ st.1 ∨ ∃ k', (∃ v', (k', v') ∈ l) ∧
      rootCheckB fns k' = true ∧ p.1 = nameOf k' := by
  induction l generalizing st with
  | nil =>
    unfold parseFilters at h
    obtain rfl := Except.ok.inj h
    intro p hp
    exact Or.inl hp
  | cons kv rest ih =>
    unfold parseFilters at h
    cases hs : parseStep fns st kv.1 kv.2 with
    | error e => rw [hs] at h; cases h
    | ok st' =>
      rw [hs] at h
      intro p hp
      rcases ih st' h p hp with hin | ⟨k', ⟨v', hv⟩, hrc, hname⟩
      · rcases parseStep_shape fns st st' kv.1 kv.2 hs with ⟨h1, _⟩ |
          ⟨clause, h1, _, hrc2⟩
        · rw [h1] at hin
          exact Or.inl hin
        · rw [h1] at hin
          rcases mem_dictInsert hin with h2 | h2
          · exact Or.inl h2
          · refine Or.inr ⟨kv.1, ⟨kv.2, ?_⟩, hrc2, by rw [h2]⟩
            rw [Prod.mk.eta]
            exact List.mem_cons_self _ _
      · exact Or.inr ⟨k', ⟨v', List.mem_cons_of_mem _ hv⟩, hrc, hname⟩

/-! ## Lemmas about the float-division model

The divergence of `int(total / per_page)` from `total // per_page` needs
`total ≥ 2^53`: below that every quotient's floor survives the rounding to
53 significant bits, which `pyIntTrueDiv_eq_div` proves. -/

theorem log2fuel_bounds : ∀ fuel n, 1 ≤ n → n ≤ fuel →
    2 ^ log2fuel fuel n ≤ n ∧ n < 2 ^ (log2fuel fuel n + 1) := by
  intro fuel
  induction fuel with
  | zero => intro n h1 h2; omega
  | succ f ih =>
    intro n h1 h2
    unfold log2fuel
    by_cases h : 2 ≤ n
    · rw [if_pos h]
      have hrec := ih (n / 2) (by omega) (by omega)
      constructor
      · calc 2 ^ (log2fuel f (n / 2) + 1)
            = 2 ^ log2fuel f (n / 2) * 2 := by ring
          _ ≤ n / 2 * 2 := Nat.mul_le_mul_right 2 hrec.1
          _ ≤ n := Nat.div_mul_le_self n 2
      · have hle : n / 2 + 1 ≤ 2 ^ (log2fuel f (n / 2) + 1) := hrec.2
        calc n < (n / 2 + 1) * 2 := by omega
          _ ≤ 2 ^ (log2fuel f (n / 2) + 1) * 2 := Nat.mul_le_mul_right 2 hle
          _ = 2 ^ (log2fuel f (n / 2) + 1 + 1) := by ring
    · rw [if_neg h]
      constructor
      · simpa using h1
      · simpa using (by omega : n < 2)

theorem pyLog2_bounds (n : ℕ) (h : 1 ≤ n) :
    2 ^ pyLog2 n ≤ n ∧ n < 2 ^ (pyLog2 n + 1) :=
  log2fuel_bounds n n h (le_refl n)

theorem floatDiv_lower (a b : ℕ) (ha : 1 ≤ a) (hb : 1 ≤ b) :
    (scalePair a b (floatDivExp a b)).2 * 2 ^ 52 ≤
      (scalePair a b (floatDivExp a b)).1 := by
  simp only [floatDivExp]
  set e1 : ℤ := (pyLog2 a : ℤ) - (pyLog2 b : ℤ) - 52 with he1
  by_cases hbr : (scalePair a b e1).2 * 2 ^ 52 ≤ (scalePair a b e1).1
  · rwa [if_pos hbr]
  · rw [if_neg hbr]
    obtain ⟨hal, hau⟩ := pyLog2_bounds a ha
    obtain ⟨hbl, hbu⟩ := pyLog2_bounds b hb
    have hid := Int.toNat_sub_toNat_neg (e1 - 1)
    have hexp : pyLog2 a + (-(e1 - 1)).toNat =
        pyLog2 b + (e1 - 1).toNat + 53 := by omega
    simp only [scalePair]
    calc b * 2 ^ (e1 - 1).toNat * 2 ^ 52
        ≤ (2 ^ (pyLog2 b + 1) - 1) * (2 ^ (e1 - 1).toNat * 2 ^ 52) := by
          rw [mul_assoc]
          exact Nat.mul_le_mul_right _ (by omega)
      _ ≤ 2 ^ (pyLog2 b + 1) * (2 ^ (e1 - 1).toNat * 2 ^ 52) -
          (2 ^ (e1 - 1).toNat * 2 ^ 52) := by
          rw [Nat.sub_mul, one_mul]
      _ ≤ 2 ^ (pyLog2 a + (-(e1 - 1)).toNat) - 1 := by
          rw [← pow_add, ← pow_add]
          have h1 : pyLog2 b + 1 + ((e1 - 1).toNat + 52) =
              pyLog2 a + (-(e1 - 1)).toNat := by omega
          rw [h1]
          have h2 : 0 < 2 ^ ((e1 - 1).toNat + 52) := pow_pos (by norm_num) _
          omega
      _ ≤ a * 2 ^ (-(e1 - 1)).toNat := by
          rw [pow_add]
          have := Nat.mul_le_mul_right (2 ^ (-(e1 - 1)).toNat) hal
          omega

theorem pyIntTrueDiv_eq_div (a b : ℕ) (hb : 1 ≤ b) (ha : a < 2 ^ 53) :
    pyIntTrueDiv a b = a / b := by
  by_cases ha0 : a = 0
  · subst ha0
    simp [pyIntTrueDiv]
  · have ha1 : 1 ≤ a := by omega
    have hlow := floatDiv_lower a b ha1 hb
    simp only [pyIntTrueDiv]
    rw [if_neg (by omega : ¬ (a = 0 ∨ b = 0))]
    set E := floatDivExp a b with hE
    by_cases hEpos : 0 ≤ E
    · rw [if_pos hEpos]
      have hc0 : (-E).toNat = 0 := Int.toNat_of_nonpos (by omega)
      simp only [scalePair, hc0, pow_zero, mul_one] at hlow ⊢
      have hd1 : b * 2 ^ E.toNat = 1 := by
        rcases Nat.lt_or_ge (b * 2 ^ E.toNat) 2 with h2 | h2
        · have hpos : 0 < b * 2 ^ E.toNat := by positivity
          omega
        · exfalso
          have h3 : 2 * 2 ^ 52 ≤ b * 2 ^ E.toNat * 2 ^ 52 :=
            Nat.mul_le_mul_right _ h2
          omega
      have hb1 : b = 1 := Nat.eq_one_of_mul_eq_one_right hd1
      have hp1 : 2 ^ E.toNat = 1 := Nat.eq_one_of_mul_eq_one_left hd1
      have ht0 : E.toNat = 0 := by
        by_contra hne
        have := Nat.one_lt_two_pow_iff.2 hne
        omega
      rw [hd1, hb1, ht0]
      rw [Nat.div_one, Nat.mod_one]
      norm_num
    · rw [if_neg hEpos]
      have ht0 : E.toNat = 0 := Int.toNat_of_nonpos (by omega)
      simp only [scalePair, ht0, pow_zero, mul_one] at hlow ⊢
      set c := (-E).toNat with hc
      set n := a * 2 ^ c with hn
      set m := n / b with hm
      set r := n % b with hr
      clear_value c n m r
      have hcpos : (0:ℕ) < 2 ^ c := by positivity
      have hmq : m / 2 ^ c = a / b := by
        rw [hm, hn, Nat.div_div_eq_div_mul, mul_comm b (2 ^ c),
          ← Nat.div_div_eq_div_mul, Nat.mul_div_cancel a hcpos]
      have hsucc : b ≤ 2 * r → (m + 1) / 2 ^ c = a / b := by
        intro hble
        rw [Nat.succ_div]
        by_cases hdvd : 2 ^ c ∣ m + 1
        · exfalso
          obtain ⟨t2, ht2⟩ := hdvd
          obtain ⟨t3, rfl⟩ : ∃ t3, t2 = t3 + 1 := by
            refine ⟨t2 - 1, ?_⟩
            rcases Nat.eq_zero_or_pos t2 with h0 | h1
            · rw [h0, mul_zero] at ht2
              exact absurd ht2 (Nat.succ_ne_zero m)
            · omega
          have ht2' : m + 1 = t3 * 2 ^ c + 2 ^ c := by
            rw [ht2]; ring
          have hnm : b * m + r = n := by
            rw [hm, hr]
            exact Nat.div_add_mod n b
          have hmod : b * (a / b) + a % b = a := Nat.div_add_mod a b
          have hsb : a % b < b := Nat.mod_lt a (by omega)
          have hqt : a / b = t3 := by
            rw [← hmq]
            have hm3 : m = (2 ^ c - 1) + t3 * 2 ^ c := by
              have h1 : 0 < 2 ^ c := hcpos
              omega
            rw [hm3, Nat.add_mul_div_right _ _ hcpos,
              Nat.div_eq_of_lt (by omega), Nat.zero_add]
          -- abbreviate the products so the final combination is linear
          have hx1 : b * m + b = b * (t3 * 2 ^ c) + b * 2 ^ c := by
            rw [← Nat.mul_add, ← ht2', Nat.mul_add, Nat.mul_one]
          have hx2 : a * 2 ^ c = (b * (a / b)) * 2 ^ c + (a % b) * 2 ^ c := by
            rw [← Nat.add_mul, hmod]
          rw [hqt] at hx2
          have hx3 : (b * t3) * 2 ^ c = b * (t3 * 2 ^ c) := by ring
          have hx4 : (a % b) * 2 ^ c + 2 ^ c ≤ b * 2 ^ c := by
            have h5 : (a % b + 1) * 2 ^ c ≤ b * 2 ^ c :=
              Nat.mul_le_mul_right (2 ^ c) (by omega)
            calc (a % b) * 2 ^ c + 2 ^ c = (a % b + 1) * 2 ^ c := by ring
              _ ≤ b * 2 ^ c := h5
          -- 2 * (a * 2^c) = 2 * (b*m) + 2*r ≥ 2*(b*m) + b
          -- combine: b ≥ 2 * 2^c
          have hbc : 2 * 2 ^ c ≤ b := by
            have h2n : 2 * (b * m) + b ≤ 2 * n := by omega
            rw [hn] at h2n
            omega
          have hfin : 2 ^ c * 2 ^ 53 ≤ n := by
            calc 2 ^ c * 2 ^ 53 = 2 * 2 ^ c * 2 ^ 52 := by ring
              _ ≤ b * 2 ^ 52 := Nat.mul_le_mul_right _ hbc
              _ ≤ n := hlow
          rw [hn, mul_comm a (2 ^ c)] at hfin
          have h53 : 2 ^ 53 ≤ a := Nat.le_of_mul_le_mul_left hfin hcpos
          omega
        · rw [if_neg hdvd, Nat.add_zero]
          exact hmq
      by_cases hb1 : 2 * r < b
      · rw [if_pos hb1]
        exact hmq
      · rw [if_neg hb1]
        by_cases hb2 : b < 2 * r
        · rw [if_pos hb2]
          exact hsucc (by omega)
        · rw [if_neg hb2]
          by_cases hme : m % 2 = 0
          · rw [if_pos hme]
            exact hmq
          · rw [if_neg hme]
            exact hsucc (by omega)

theorem get_db_query_ok (mf : List (String × Bool))
    (fb : List (String × FilterClause))
    (dfs : List (List (String × FilterValue)))
    (page pp tot : Nat)
    (q : List (String × List (String × FilterValue))) (info : PageInfo)
    (h : get_db_query mf fb dfs page pp tot = Except.ok (q, info)) :
    ∃ f1, applyFilters mf fb [] = Except.ok f1 ∧
      q = applyDefaults mf dfs.flatten f1 ∧
      info = ⟨tot, (page - 1) * pp, max (pyIntTrueDiv tot pp) 1,
        (if (page - 1) * pp + pp < tot then some (page + 1) else none),
        (if page > 1 then some (page - 1) else none)⟩ := by
  unfold get_db_query at h
  cases ha : applyFilters mf fb [] with
  | error e => rw [ha] at h; cases h
  | ok f1 =>
    rw [ha] at h
    have hpair := Except.ok.inj h
    exact ⟨f1, rfl, (congrArg Prod.fst hpair).symm,
      (congrArg Prod.snd hpair).symm⟩

/-! ## Claims -/

/-- Claim C1: for every request and every tenant-scoping key `k` supplied in
`default_filters` (with value `v`), the query dict returned by `get_db_query`
maps that key — in its Link-adjusted `.$id` form when applicable — to the
default filter's `$eq` predicate, for arbitrary user-supplied `filter_by`
clauses: parsed and default filters are ANDed additively and the defaults are
applied last, so a forged same-named filter key in the query string can never
displace the tenant-scoping filter.  `huniq` states that `k` is the only
default entry landing on its adjusted key (tenant-scoping keys are distinct
in practice). -/
theorem c1_default_filters_always_win
    (mf : List (String × Bool)) (fb : List (String × FilterClause))
    (dfs : List (List (String × FilterValue)))
    (page pp tot : Nat)
    (q : List (String × List (String × FilterValue))) (info : PageInfo)
    (k : String) (v : FilterValue)
    (hok : get_db_query mf fb dfs page pp tot = Except.ok (q, info))
    (hmem : (k, v) ∈ dfs.flatten)
    (hname : (mf.map (fun p => p.1)).contains k = true)
    (huniq : ∀ p ∈ dfs.flatten,
      (mf.map (fun p2 => p2.1)).contains p.1 = true →
      adjustKey mf p.1 = adjustKey mf k → p = (k, v)) :
    dictGet q (adjustKey mf k) = some [("$eq", check_object_id_value v)] := by
  obtain ⟨f1, ha, hq, -⟩ :=
    get_db_query_ok mf fb dfs page pp tot q info hok
  rw [hq]
  exact applyDefaults_lookup mf dfs.flatten f1 k v hmem hname huniq

/-- Witness for C1: a request forging an `entity_id=attacker` filter in its
query string still gets the tenant default `entity_id=tenant1` in the final
query dict. -/
theorem c1_default_filters_always_win_witness :
    dictGet
      [("entity_id", [("$eq", FilterValue.scalar (ScalarValue.str "tenant1"))])]
      (adjustKey [("entity_id", false)] "entity_id") =
      some [("$eq",
        check_object_id_value (FilterValue.scalar (ScalarValue.str "tenant1")))] :=
  c1_default_filters_always_win [("entity_id", false)]
    [("entity_id", ⟨"$eq", FilterValue.scalar (ScalarValue.str "attacker")⟩)]
    [[("entity_id", FilterValue.scalar (ScalarValue.str "tenant1"))]]
    1 20 0
    [("entity_id", [("$eq", FilterValue.scalar (ScalarValue.str "tenant1"))])]
    ⟨0, 0, 1, none, none⟩
    "entity_id" (FilterValue.scalar (ScalarValue.str "tenant1"))
    (by rfl) (by decide) (by decide) (by decide)

/-- Counterexample to C2 as stated: the code computes
`pages = max(int(total / per_page), 1)` with Python float true division,
which deviates from the claim's floor division once `total ≥ 2^53`: at
`total = 10^17`, `per_page = 3` (`page = 1`) the code's `pages` is
`33333333333333332` while `max(total // per_page, 1)` is
`33333333333333333`. -/
theorem c2_counterexample_pages_float_division :
    get_db_query [] [] [] 1 3 100000000000000000 =
      Except.ok ([],
        ⟨100000000000000000, 0, 33333333333333332, some 2, none⟩) ∧
    (33333333333333332 : Nat) ≠ max (100000000000000000 / 3) 1 :=
  ⟨by rfl, by decide⟩

/-- Claim C2 (amended): for every request with `page ≥ 1` and
`per_page ≥ 1`, after `get_db_query` completes, `skip = (page-1)*per_page`,
`next_page` is `page+1` exactly when `skip + per_page < total` and `None`
otherwise, and `prev_page` is `page-1` exactly when `page > 1` and `None`
otherwise; and whenever `total < 2^53` — the range on which float true
division is exact — `pages = max(total // per_page, 1)` as well. -/
theorem c2_amended_pagination_invariants
    (mf : List (String × Bool)) (fb : List (String × FilterClause))
    (dfs : List (List (String × FilterValue)))
    (page pp tot : Nat)
    (q : List (String × List (String × FilterValue))) (info : PageInfo)
    (hpage : 1 ≤ page) (hpp : 1 ≤ pp) (htot : tot < 2 ^ 53)
    (hok : get_db_query mf fb dfs page pp tot = Except.ok (q, info)) :
    info.skip = (page - 1) * pp ∧
    info.pages = max (tot / pp) 1 ∧
    info.next_page = (if info.skip + pp < tot then some (page + 1) else none) ∧
    info.prev_page = (if 1 < page then some (page - 1) else none) := by
  obtain ⟨f1, -, -, hinfo⟩ :=
    get_db_query_ok mf fb dfs page pp tot q info hok
  subst hinfo
  refine ⟨rfl, ?_, rfl, rfl⟩
  show max (pyIntTrueDiv tot pp) 1 = max (tot / pp) 1
  rw [pyIntTrueDiv_eq_div tot pp hpp htot]

/-- Witness for amended C2: `page = 2`, `per_page = 5`, `total = 12` gives
`skip = 5`, `pages = 2`, `next_page = 3`, `prev_page = 1`. -/
theorem c2_amended_pagination_invariants_witness :
    (1 : Nat) ≤ 2 ∧ (1 : Nat) ≤ 5 ∧ (12 : Nat) < 2 ^ 53 ∧
    ((⟨12, 5, 2, some 3, some 1⟩ : PageInfo).skip = (2 - 1) * 5 ∧
     (⟨12, 5, 2, some 3, some 1⟩ : PageInfo).pages = max (12 / 5) 1 ∧
     (⟨12, 5, 2, some 3, some 1⟩ : PageInfo).next_page =
       (if (⟨12, 5, 2, some 3, some 1⟩ : PageInfo).skip + 5 < 12
        then some (2 + 1) else none) ∧
     (⟨12, 5, 2, some 3, some 1⟩ : PageInfo).prev_page =
       (if 1 < 2 then some (2 - 1) else none)) :=
  ⟨by decide, by decide, by decide,
    c2_amended_pagination_invariants [] [] [] 2 5 12 []
      ⟨12, 5, 2, some 3, some 1⟩
      (by decide) (by decide) (by decide) (by rfl)⟩

/-- Claim C3 (code bug): the spec says a `between` value with fewer than two
`__`-separated parts is routed to the residual bucket and parsing never
fails, but the code's guard `len(val) < 1` is unsatisfiable (`str.split`
always returns at least one element) and `val[1]` then raises `IndexError`:
`prepare_filter_args` fails on `weight.$btw=5`. -/
theorem c3_btw_short_value_raises :
    prepare_filter_args ["weight"] [("weight.$btw", "5")] =
      Except.error "IndexError: list index out of range" := by rfl

/-- Counterexample to C4 as stated: the reserved identifier field `_id` is
explicitly allowed by `_extra_fields = ["_id"]`, so `_id.$eq=5` produces a
filter clause and the residual bucket stays empty, although `_id` is not a
declared model field. -/
theorem c4_counterexample_id_filter_kept :
    prepare_filter_args ["name"] [("_id.$eq", "5")] =
      Except.ok
        ([("_id", ⟨"$eq", FilterValue.scalar (ScalarValue.str "5")⟩)], []) := by
  rfl

/-- Claim C4 (amended): a query-string key whose attribute-path root segment
is neither a declared field nor the reserved identifier `_id` is discarded
into the residual `others` bucket, and every clause of the resulting
`filter_args` originates from a key whose root segment is declared or `_id`
(with the clause keyed by that key's attribute path). -/
theorem c4_amended_undeclared_root_discarded
    (fns : List String) (qp : List (String × String))
    (fa : List (String × FilterClause)) (others : List (String × String))
    (k v : String)
    (hok : prepare_filter_args fns qp = Except.ok (fa, others))
    (hmem : (k, v) ∈ qp)
    (hstd : ¬ STANDARD_PARAMS.contains k = true)
    (hroot : rootCheckB fns k = false) :
    (dictGet others k).isSome ∧
    (∀ p ∈ fa, ∃ k2 v2, (k2, v2) ∈ qp ∧
      ¬ STANDARD_PARAMS.contains k2 = true ∧
      rootCheckB fns k2 = true ∧ p.1 = nameOf k2) := by
  simp only [prepare_filter_args] at hok
  constructor
  · apply parseFilters_others fns _ ([], []) fa others k hok
    have hmem2 : (k, v) ∈ qp.filter
        (fun p => ¬ STANDARD_PARAMS.contains p.1) :=
      List.mem_filter.2 ⟨hmem, by simpa using hstd⟩
    have hsome := @dictGet_isSome_foldl_insert String _ [] k
      (Or.inr ⟨v, hmem2⟩)
    obtain ⟨v2, hv2⟩ := Option.isSome_iff_exists.1 hsome
    exact Or.inr ⟨v2, dictGet_mem hv2, hroot⟩
  · intro p hp
    rcases parseFilters_fa_source fns _ ([], []) fa others hok p hp with
      hin | ⟨k2, ⟨v2, hv2⟩, hrc, hnm⟩
    · exact absurd hin (List.not_mem_nil p)
    · rcases mem_foldl_insert hv2 with h0 | h0
      · exact absurd h0 (List.not_mem_nil _)
      · have hf := List.mem_filter.1 h0
        exact ⟨k2, v2, hf.1, by simpa using hf.2, hrc, hnm⟩

/-- Witness for C4 (amended): the undeclared-rooted key `foo.$eq` lands in
the residual bucket and the clause set stays empty. -/
theorem c4_amended_undeclared_root_discarded_witness :
    ((dictGet [("foo.$eq", "1")] "foo.$eq").isSome ∧
    (∀ p ∈ ([] : List (String × FilterClause)), ∃ k2 v2,
      (k2, v2) ∈ [("foo.$eq", "1")] ∧
      ¬ STANDARD_PARAMS.contains k2 = true ∧
      rootCheckB ["name"] k2 = true ∧ p.1 = nameOf k2)) :=
  c4_amended_undeclared_root_discarded ["name"] [("foo.$eq", "1")]
    [] [("foo.$eq", "1")] "foo.$eq" "1"
    (by rfl) (by decide) (by decide) (by decide)

/-- Claim C5: every generated default handler whose allow flag is `false`
returns the fixed 401 `ENDPOINT.OPERATION.RESTRICTED` error for every
request — the payload (or parameters) is universally quantified and never
touched — while `Endpoint.init()` keeps all the default routes in the route
table regardless of the flags (the flag only drives `include_in_schema`). -/
theorem c5_disabled_handlers_denied {α β γ : Type} (f : EndpointFlags)
    (handler : α → β) (handler2 : γ → α → β) (x : α) (i : γ) (pre : String) :
    (f.allow_list = false →
      list_route_func f.allow_list handler x = Except.error operationDeniedError) ∧
    (f.allow_fetch = false →
      fetch_route_func f.allow_fetch handler x = Except.error operationDeniedError) ∧
    (f.allow_create = false →
      create_route_func f.allow_create handler x = Except.error operationDeniedError) ∧
    (f.allow_update = false →
      update_route_func f.allow_update handler2 i x = Except.error operationDeniedError) ∧
    (f.allow_delete = false →
      delete_route_func f.allow_delete handler x = Except.error operationDeniedError) ∧
    (⟨"GET", pre, f.allow_list⟩ ∈ Endpoint.init_routes pre f ∧
     ⟨"GET", pre ++ "/{obj_id}", f.allow_fetch⟩ ∈ Endpoint.init_routes pre f ∧
     ⟨"POST", pre, f.allow_create⟩ ∈ Endpoint.init_routes pre f ∧
     ⟨"PUT", pre ++ "/{obj_id}", f.allow_update⟩ ∈ Endpoint.init_routes pre f ∧
     ⟨"POST", pre ++ "/{obj_id}", f.allow_update⟩ ∈ Endpoint.init_routes pre f ∧
     ⟨"DELETE", pre ++ "/{obj_id}", f.allow_delete⟩ ∈ Endpoint.init_routes pre f) := by
  refine ⟨?_, ?_, ?_, ?_, ?_, ?_⟩
  · intro h
    simp [list_route_func, h]
  · intro h
    simp [fetch_route_func, h]
  · intro h
    simp [create_route_func, h]
  · intro h
    simp [update_route_func, h]
  · intro h
    simp [delete_route_func, h]
  · simp [Endpoint.init_routes]

/-- Witness for C5: with every flag `false`, each disabled handler returns
the fixed operation-denied error on a concrete request. -/
theorem c5_disabled_handlers_denied_witness :
    list_route_func false (fun n : Nat => n + 1) 0 =
      Except.error operationDeniedError ∧
    fetch_route_func false (fun n : Nat => n + 1) 0 =
      Except.error operationDeniedError ∧
    create_route_func false (fun n : Nat => n + 1) 0 =
      Except.error operationDeniedError ∧
    update_route_func false (fun (_ : String) (n : Nat) => n) "id1" 0 =
      Except.error operationDeniedError ∧
    delete_route_func false (fun n : Nat => n + 1) 0 =
      Except.error operationDeniedError ∧
    RouteEntry.mk "DELETE" "/assets/{obj_id}" false ∈
      Endpoint.init_routes "/assets" ⟨false, false, false, false, false⟩ :=
  ⟨(c5_disabled_handlers_denied ⟨false, false, false, false, false⟩
      (fun n : Nat => n + 1) (fun (_ : String) (n : Nat) => n) 0 "id1" "/assets").1 rfl,
   (c5_disabled_handlers_denied ⟨false, false, false, false, false⟩
      (fun n : Nat => n + 1) (fun (_ : String) (n : Nat) => n) 0 "id1" "/assets").2.1 rfl,
   (c5_disabled_handlers_denied ⟨false, false, false, false, false⟩
      (fun n : Nat => n + 1) (fun (_ : String) (n : Nat) => n) 0 "id1" "/assets").2.2.1 rfl,
   (c5_disabled_handlers_denied ⟨false, false, false, false, false⟩
      (fun n : Nat => n + 1) (fun (_ : String) (n : Nat) => n) 0 "id1" "/assets").2.2.2.1 rfl,
   (c5_disabled_handlers_denied ⟨false, false, false, false, false⟩
      (fun n : Nat => n + 1) (fun (_ : String) (n : Nat) => n) 0 "id1" "/assets").2.2.2.2.1 rfl,
   (c5_disabled_handlers_denied ⟨false, false, false, false, false⟩
      (fun n : Nat => n + 1) (fun (_ : String) (n : Nat) => n) 0 "id1" "/assets").2.2.2.2.2.2.2.2.2.2⟩

/-- Claim C6: a bearer-token guard built with `public=True` resolves without
error and without an identity, for any request (in particular with the
`Authorization` header absent); a non-public guard with the header absent
fails with the 401 `TOKEN.REQUIRED` error. -/
theorem c6_bearer_guard_public_and_required
    (decode : String → TokenDecode) (getUser : String → Option UserRec)
    (validate : Bool) (authorization : Option String) :
    auth_dependency true validate decode getUser authorization =
      Except.ok none ∧
    auth_dependency false validate decode getUser none =
      Except.error tokenRequiredFailure :=
  ⟨rfl, rfl⟩

/-- Claim C7: the API-key guard resolves the presented key against the live
or test keyspace selected by the `sk_live` prefix, and fails with the 401
`TOKEN.DENIED` error whenever no stored credential matches the key or the
resolved credential has `is_active = false` — in particular an inactive
credential is rejected regardless of key correctness. -/
theorem c7_api_guard_fails_closed (db : List ApiCredentialRec) (key : String)
    (hkey : key ≠ "") :
    (find_by_key db key = db.find?
      (fun c => (if pyStartsWith key "sk_live" then c.live_key else c.test_key) =
        some key)) ∧
    (find_by_key db key = none →
      api_dependency false db key = Except.error apiTokenDeniedError) ∧
    (∀ c, find_by_key db key = some c → c.is_active = some false →
      api_dependency false db key = Except.error apiTokenDeniedError) := by
  refine ⟨rfl, ?_, ?_⟩
  · intro hnone
    unfold api_dependency
    rw [if_neg (by simp), if_neg hkey, hnone]
  · intro c hsome hact
    unfold api_dependency
    rw [if_neg (by simp), if_neg hkey, hsome]
    simp only
    rw [if_pos hact]

/-- Witness for C7: the key `sk_test_abc` matches a stored test credential
whose `is_active` is `false`; the guard answers 401 `TOKEN.DENIED`. -/
theorem c7_api_guard_fails_closed_witness :
    api_dependency false
      [⟨"app_1", some "user_1", some "sk_test_abc", some "sk_live_xyz",
        some false⟩] "sk_test_abc" = Except.error apiTokenDeniedError :=
  (c7_api_guard_fails_closed
    [⟨"app_1", some "user_1", some "sk_test_abc", some "sk_live_xyz",
      some false⟩] "sk_test_abc" (by decide)).2.2
    ⟨"app_1", some "user_1", some "sk_test_abc", some "sk_live_xyz",
      some false⟩ (by rfl) (by rfl)

/-- Claim C8: the default update handler merges exactly the payload fields
that are explicitly set and non-None over the existing record's values (the
last set value winning, existing values surviving otherwise, for any key not
claimed by the ambient extra parameters), and the merged document is what is
re-validated and persisted as a full replace; in particular merging
`{name:"new"}` over `{name:"old", description:"x"}` persists
`{name:"new", description:"x"}`. -/
theorem c8_update_partial_merge {V : Type} (existing : List (String × V))
    (payload : List (String × Option V)) (extra : List (String × V))
    (k : String)
    (hk : ¬ k ∈ extra.map (fun p => p.1)) :
    (dictGet (_update_merge existing payload extra) k =
      (match lastVal (payload_dump payload) k with
       | some v => some v
       | none => dictGet existing k)) ∧
    _update_func (some [("name", "old"), ("description", "x")])
      [("name", some "new")] ([] : List (String × String)) =
      Except.ok [("name", "new"), ("description", "x")] := by
  constructor
  · unfold _update_merge
    rw [dictGet_foldl_insert, lastVal_foldl_insert,
      lastVal_eq_none_of_not_mem hk]
    simp only
    rw [lastVal_foldl_insert]
    cases hlv : lastVal (payload_dump payload) k with
    | some v => rfl
    | none => rw [lastVal_nil]
  · rfl

/-- Witness for C8: the merge of `{name:"new"}` over
`{name:"old", description:"x"}` with no ambient extras. -/
theorem c8_update_partial_merge_witness :
    (dictGet (_update_merge [("name", "old"), ("description", "x")]
        [("name", some "new")] ([] : List (String × String))) "name" =
      (match lastVal (payload_dump [("name", some "new")]) "name" with
       | some v => some v
       | none => dictGet [("name", "old"), ("description", "x")] "name")) ∧
    _update_func (some [("name", "old"), ("description", "x")])
      [("name", some "new")] ([] : List (String × String)) =
      Except.ok [("name", "new"), ("description", "x")] :=
  c8_update_partial_merge [("name", "old"), ("description", "x")]
    [("name", some "new")] [] "name" (by decide)

/-- Counterexample to C9 as stated: on the exact example query string the
operator tokens are kept verbatim, and `btw` is compared against the enum
value `$btw`, so the `weight` clause is `{op:"btw", value:"1"}` — not the
claimed `{min,max}` pair — and `get_db_query` then rejects the verbatim
`eq`/`btw` tokens as invalid operators, so pagination never resolves.
Moreover even on the working `$`-prefixed form `pages` is `2`, not `3`
(`max(int(12/5),1) = 2`). -/
theorem c9_counterexample_example_query :
    prepare_filter_args ["status", "weight"]
      [("status.eq", "active"), ("weight.btw", "1__10"),
       ("page_by.page", "2"), ("page_by.per_page", "5")] =
      Except.ok
        ([("status", ⟨"eq", FilterValue.scalar (ScalarValue.str "active")⟩),
          ("weight", ⟨"btw", FilterValue.scalar (ScalarValue.str "1")⟩)],
         []) ∧
    get_db_query [("status", false), ("weight", false)]
      [("status", ⟨"eq", FilterValue.scalar (ScalarValue.str "active")⟩),
       ("weight", ⟨"btw", FilterValue.scalar (ScalarValue.str "1")⟩)]
      [] 2 5 12 =
      Except.error "ValidationError: invalid operator" ∧
    FilterClause.mk "btw" (FilterValue.scalar (ScalarValue.str "1")) ≠
      FilterClause.mk "btw"
        (FilterValue.range (ScalarValue.int 1) (ScalarValue.int 10)) :=
  ⟨by rfl, by rfl, by decide⟩

/-- Claim C9 (amended): for the query string
`status.$eq=active&weight.$btw=1__10&page_by.page=2&page_by.per_page=5` on a
resource declaring `status` and `weight`, with 12 matching records, parsing
produces the clauses `{status:{op:"$eq",value:"active"},
weight:{op:"$btw",value:{min:1,max:10}}}` (the `between` bounds are coerced
to numbers) and pagination resolves to `skip=5`, `pages=2`, `prev_page=1`,
`next_page=3`. -/
theorem c9_amended_example_query :
    prepare_filter_args ["status", "weight"]
      [("status.$eq", "active"), ("weight.$btw", "1__10"),
       ("page_by.page", "2"), ("page_by.per_page", "5")] =
      Except.ok
        ([("status", ⟨"$eq", FilterValue.scalar (ScalarValue.str "active")⟩),
          ("weight", ⟨"$btw",
            FilterValue.range (ScalarValue.int 1) (ScalarValue.int 10)⟩)],
         []) ∧
    get_db_query [("status", false), ("weight", false)]
      [("status", ⟨"$eq", FilterValue.scalar (ScalarValue.str "active")⟩),
       ("weight", ⟨"$btw",
         FilterValue.range (ScalarValue.int 1) (ScalarValue.int 10)⟩)]
      [] 2 5 12 =
      Except.ok
        ([("status", [("$eq", FilterValue.scalar (ScalarValue.str "active"))]),
          ("weight", [("$gte", FilterValue.scalar (ScalarValue.int 1)),
            ("$lt", FilterValue.scalar (ScalarValue.int 10))])],
         ⟨12, 5, 2, some 3, some 1⟩) :=
  ⟨by rfl, by rfl⟩

/-- Claim C10: every key of the query dict returned by `get_db_query` is
either the exact name of a declared field of the resource model or such a
name with the `.$id` suffix when that field's annotation is a `Link` type;
consequently a name that is neither (such as a surviving multi-segment
dotted path in `filter_by`) is never a key of the database query. -/
theorem c10_query_keys_are_declared_fields
    (mf : List (String × Bool)) (fb : List (String × FilterClause))
    (dfs : List (List (String × FilterValue)))
    (page pp tot : Nat)
    (q : List (String × List (String × FilterValue))) (info : PageInfo)
    (hok : get_db_query mf fb dfs page pp tot = Except.ok (q, info)) :
    (∀ p ∈ q, GoodKey mf p.1) ∧
    (∀ n, ¬ (mf.map (fun p => p.1)).contains n = true →
      (∀ fp ∈ mf, ¬ (fp.2 = true ∧ n = fp.1 ++ ".$id")) →
      dictGet q n = none) := by
  obtain ⟨f1, ha, hq, -⟩ :=
    get_db_query_ok mf fb dfs page pp tot q info hok
  have hgood : ∀ p ∈ q, GoodKey mf p.1 := by
    rw [hq]
    exact applyDefaults_goodKeys mf dfs.flatten f1
      (applyFilters_goodKeys mf fb [] f1 (fun p hp => absurd hp (List.not_mem_nil p)) ha)
  refine ⟨hgood, ?_⟩
  intro n hn hnid
  cases hd : dictGet q n with
  | none => rfl
  | some w =>
    obtain ⟨fp, hfp, hor⟩ := hgood (n, w) (dictGet_mem hd)
    rcases hor with h1 | h23
    · have hmem : n ∈ mf.map (fun p => p.1) := List.mem_map.2 ⟨fp, hfp, h1.symm⟩
      exact absurd (by simpa using hmem) hn
    · exact absurd h23 (hnid fp hfp)

/-- Witness for C10: with a `Link` field `owner` and a surviving dotted
clause `a.b`, the built query contains only `owner.$id` and no `a.b` key. -/
theorem c10_query_keys_are_declared_fields_witness :
    (∀ p ∈ [("owner.$id",
        [("$eq", FilterValue.scalar (ScalarValue.str "u"))])],
      GoodKey [("status", false), ("owner", true)] p.1) ∧
    (∀ n, ¬ ((([("status", false), ("owner", true)] :
        List (String × Bool)).map (fun p => p.1)).contains n) = true →
      (∀ fp ∈ ([("status", false), ("owner", true)] : List (String × Bool)),
        ¬ (fp.2 = true ∧ n = fp.1 ++ ".$id")) →
      dictGet [("owner.$id",
        [("$eq", FilterValue.scalar (ScalarValue.str "u"))])] n = none) :=
  c10_query_keys_are_declared_fields [("status", false), ("owner", true)]
    [("a.b", ⟨"$eq", FilterValue.scalar (ScalarValue.str "x")⟩),
     ("owner", ⟨"$eq", FilterValue.scalar (ScalarValue.str "u")⟩)]
    [] 1 20 0
    [("owner.$id", [("$eq", FilterValue.scalar (ScalarValue.str "u"))])]
    ⟨0, 0, 1, none, none⟩ (by rfl)

end MicroCloud
